import Mathlib

/-!
Verification of the CCIP `PriceService`
(`core/services/ocr2/plugins/ccip/internal/ccipdb/price_service.go`).

We shallowly embed the price-observation pipeline: token identifiers,
price maps (Go `map[TokenID]*big.Int` modelled as association lists with
`Option Int` values, `none` standing for a nil `*big.Int`), the
backward-compatibility resolver, the token/gas price observers, the
read API and the DB write helpers.  External collaborators (price
getter, gas estimator, price-registry reader, ORM) are passed in as
values or oracles of type `Except Unit _`, mirroring Go's
`(value, error)` returns.
-/

namespace PriceService

/-- `ccipcommon.TokenID`: composite key (token address, chain selector).
Addresses (`cciptypes.Address`) are Go strings; chain selectors are `uint64`,
modelled as `Nat` (no arithmetic is done on them). -/
structure TokenID where
  tokenAddress : String
  chainSelector : Nat
deriving DecidableEq, Repr

/-- A Go `map[TokenID]*big.Int` as an association list; a `none` value models
a nil `*big.Int` stored under a present key. -/
abbrev PriceMap := List (TokenID × Option Int)

/-- The fields of `priceService` that the observation pipeline reads. -/
structure PS where
  destChainSelector : Nat
  sourceChainSelector : Nat
  sourceNative : String
deriving Repr

/-- `m[k]` on a Go map: `some v` when key `k` is present with value `v`
(where `v` itself may be `none`, i.e. nil), `none` when the key is absent. -/
def lookupPrice : PriceMap → TokenID → Option (Option Int)
  | [], _ => none
  | (k, v) :: rest, key => if k = key then some v else lookupPrice rest key

/-- `m[k] = v` on a Go map: overwrite the value when the key is present,
otherwise add the binding. -/
def mapSet : PriceMap → TokenID → Option Int → PriceMap
  | [], k, v => [(k, v)]
  | (k', v') :: rest, k, v =>
      if k' = k then (k, v) :: rest else (k', v') :: mapSet rest k v

/-- `calculateUsdPer1e18TokenAmount`: `price * 1e18 / 10^decimals` on
`big.Int`, where Go's `big.Int.Div` is Euclidean division (`Int.ediv`). -/
def calculateUsdPer1e18TokenAmount (price : Int) (decimals : Nat) : Int :=
  Int.ediv (price * (10 : Int) ^ 18) ((10 : Int) ^ decimals)

/-- Lexicographic order on addresses (Go compares strings byte-wise with
`<`; we compare their character lists, which agrees on these addresses). -/
def addrLe (a b : String) : Prop := a.data ≤ b.data

instance : DecidableRel addrLe :=
  fun a b => inferInstanceAs (Decidable (a.data ≤ b.data))

instance : IsTotal String addrLe := ⟨fun a b => le_total a.data b.data⟩

instance : IsTrans String addrLe := ⟨fun _ _ _ h1 h2 => le_trans h1 h2⟩

/-- Ascending sort of addresses, as Go's
`sort.Slice(xs, func(i, j) bool { return xs[i] < xs[j] })`. -/
def sortAddrs (xs : List String) : List String :=
  List.insertionSort addrLe xs

/-- Modelled from the spec: `ccipcommon.FlattenedAndSortedTokens` is not part
of the extracted sources; per the spec it flattens the destination chain's fee
and bridged token lists and dedupes them (its name also implies sorting, which
does not affect membership). -/
def flattenedAndSortedTokens (fee bridged : List String) : List String :=
  sortAddrs (fee ++ bridged).dedup

/-- `findMissingDestNativeTokenPrice`.  The result of
`ccipcommon.GetDestinationTokens` (an external fetch through the off-ramp and
price-registry readers) is passed in as `destTokensResult`, the pair of fee
and bridged token address lists or an error. -/
def findMissingDestNativeTokenPrice (ps : PS)
    (destTokensResult : Except Unit (List String × List String))
    (tokenPrices : PriceMap) : Except Unit (Option Int) :=
  let destNativeTokenID : TokenID := ⟨ps.sourceNative, ps.destChainSelector⟩
  let sourceNativeTokenID : TokenID := ⟨ps.sourceNative, ps.sourceChainSelector⟩
  if (lookupPrice tokenPrices destNativeTokenID).isSome then
    Except.ok none
  else
    match destTokensResult with
    | Except.error e => Except.error e
    | Except.ok (fee, bridged) =>
        let onchainDestTokens := flattenedAndSortedTokens fee bridged
        if ps.sourceNative ∈ onchainDestTokens then
          match lookupPrice tokenPrices sourceNativeTokenID with
          | some (some sourcePrice) => Except.ok (some sourcePrice)
          | some none => Except.ok none
          | none => Except.ok none
        else
          Except.ok none

/-- Lines 334-341 of `observeTokenPriceUpdates`: run the resolver and, when it
yields a substitute price, insert it under the destination-native TokenID. -/
def backfilledPrices (ps : PS)
    (destTokensResult : Except Unit (List String × List String))
    (raw : PriceMap) : Except Unit PriceMap :=
  match findMissingDestNativeTokenPrice ps destTokensResult raw with
  | Except.error e => Except.error e
  | Except.ok none => Except.ok raw
  | Except.ok (some price) =>
      Except.ok (mapSet raw ⟨ps.sourceNative, ps.destChainSelector⟩ (some price))

/-- The nil-price validation loop (lines 343-348): succeeds, refining every
value to a plain `Int`, exactly when no price in the working set is nil. -/
def stripNils : PriceMap → Option (List (TokenID × Int))
  | [] => some []
  | (_, none) :: _ => none
  | (k, some v) :: rest => (stripNils rest).map (fun w => (k, v) :: w)

/-- Lookup in the nil-free working set. -/
def lookupPriceI : List (TokenID × Int) → TokenID → Option Int
  | [], _ => none
  | (k, v) :: rest, key => if k = key then some v else lookupPriceI rest key

/-- Lines 355-361: addresses of working-set TokenIDs on the destination
chain, sorted ascending. -/
def destTokensOf (ps : PS) (m : PriceMap) : List String :=
  sortAddrs ((m.filter
    (fun p => p.1.chainSelector == ps.destChainSelector)).map
      (fun p => p.1.tokenAddress))

/-- The result-building loop (lines 371-379): for each destination token
paired with its reported decimals, look its price up in the working set
(failing as an internal bug if the key is somehow absent) and normalize it. -/
def buildTokenPrices (workingNonNil : List (TokenID × Int)) (dest : Nat) :
    List (String × Nat) → Except Unit (List (String × Int))
  | [] => Except.ok []
  | td :: rest =>
    match lookupPriceI workingNonNil ⟨td.1, dest⟩ with
    | none => Except.error ()
    | some tokenPriceUSD =>
        match buildTokenPrices workingNonNil dest rest with
        | Except.error e => Except.error e
        | Except.ok acc =>
            Except.ok ((td.1, calculateUsdPer1e18TokenAmount tokenPriceUSD td.2) :: acc)

/-- `observeTokenPriceUpdates`.  `hasReader` is whether
`destPriceRegistryReader` is set; `rawResult` is the
`GetJobSpecTokenPricesUSD` response; `getTokensDecimals` is the destination
price-registry reader's `GetTokensDecimals` oracle. -/
def observeTokenPriceUpdates (ps : PS) (hasReader : Bool)
    (rawResult : Except Unit PriceMap)
    (destTokensResult : Except Unit (List String × List String))
    (getTokensDecimals : List String → Except Unit (List Nat)) :
    Except Unit (List (String × Int)) :=
  if hasReader = false then Except.error () else
  match rawResult with
  | Except.error _ => Except.error ()
  | Except.ok raw =>
    match backfilledPrices ps destTokensResult raw with
    | Except.error _ => Except.error ()
    | Except.ok working =>
      match stripNils working with
      | none => Except.error ()
      | some workingNonNil =>
        let destTokens := destTokensOf ps working
        match getTokensDecimals destTokens with
        | Except.error _ => Except.error ()
        | Except.ok destTokensDecimals =>
          if destTokensDecimals.length ≠ destTokens.length then Except.error ()
          else
            buildTokenPrices workingNonNil ps.destChainSelector
              (destTokens.zip destTokensDecimals)

/-- `observeGasPriceUpdates`.  `hasEstimator` is whether `gasPriceEstimator`
is set; `getTokenPricesUSD` is the price getter's response for the
source-native TokenID; `getGasPrice` is the estimator's raw gas price (a
possibly-nil `*big.Int`); `denoteInUSD` is the estimator's USD-denomination
oracle, taking the (possibly nil) native USD price and the raw gas price. -/
def observeGasPriceUpdates (ps : PS) (hasEstimator : Bool)
    (getTokenPricesUSD : Except Unit PriceMap)
    (getGasPrice : Except Unit (Option Int))
    (denoteInUSD : Option Int → Int → Except Unit (Option Int)) :
    Except Unit (Option Int) :=
  if hasEstimator = false then Except.error () else
  match getTokenPricesUSD with
  | Except.error _ => Except.error ()
  | Except.ok rawTokenPricesUSD =>
    match lookupPrice rawTokenPricesUSD ⟨ps.sourceNative, ps.sourceChainSelector⟩ with
    | none => Except.error ()
    | some sourceNativePriceUSD =>
      match getGasPrice with
      | Except.error _ => Except.error ()
      | Except.ok none => Except.error ()
      | Except.ok (some sourceGasPrice) =>
          denoteInUSD sourceNativePriceUSD sourceGasPrice

/-- A `cciporm.GasPrice` row: source chain selector and a possibly-nil
USD gas price. -/
structure GasPriceRow where
  sourceChainSelector : Nat
  gasPrice : Option Int
deriving DecidableEq, Repr

/-- A `cciporm.TokenPrice` row: token address and a possibly-nil USD price. -/
structure TokenPriceRow where
  tokenAddr : String
  tokenPrice : Option Int
deriving DecidableEq, Repr

/-- One iteration of the map-building loops in `GetGasAndTokenPrices`:
a row with a nil price is skipped, otherwise its value is stored under its
key (a later row overwrites an earlier one with the same key, as a Go map
assignment does). -/
def insertRow {α ρ : Type} [DecidableEq α] (keyOf : ρ → α) (valOf : ρ → Option Int)
    (m : α → Option Int) (r : ρ) : α → Option Int :=
  match valOf r with
  | none => m
  | some v => Function.update m (keyOf r) (some v)

/-- Fold a row list into a key → price map, skipping nil-priced rows. -/
def buildRowMap {α ρ : Type} [DecidableEq α] (keyOf : ρ → α) (valOf : ρ → Option Int)
    (rows : List ρ) : α → Option Int :=
  rows.foldl (insertRow keyOf valOf) (fun _ => none)

/-- Lines 201-208: build the source-chain-selector → gas-price map, skipping
rows whose stored price is nil. -/
def buildGasPriceMap (rows : List GasPriceRow) : Nat → Option Int :=
  buildRowMap (fun r => r.sourceChainSelector) (fun r => r.gasPrice) rows

/-- Lines 210-214: build the token-address → price map, skipping rows whose
stored price is nil. -/
def buildTokenPriceMap (rows : List TokenPriceRow) : String → Option Int :=
  buildRowMap (fun r => r.tokenAddr) (fun r => r.tokenPrice) rows

/-- `GetGasAndTokenPrices`: two concurrent ORM fetches joined fail-fast; on
success both maps are built from the fetched rows. -/
def GetGasAndTokenPrices
    (gasFetch : Except Unit (List GasPriceRow))
    (tokenFetch : Except Unit (List TokenPriceRow)) :
    Except Unit ((Nat → Option Int) × (String → Option Int)) :=
  match gasFetch, tokenFetch with
  | Except.error _, _ => Except.error ()
  | _, Except.error _ => Except.error ()
  | Except.ok gasPricesInDB, Except.ok tokenPricesInDB =>
      Except.ok (buildGasPriceMap gasPricesInDB, buildTokenPriceMap tokenPricesInDB)

/-- `writeGasPricesToDB`: returns the row list handed to
`UpsertGasPricesForDestChain`, or `none` when no upsert is issued (nil input
is dropped before writing). -/
def writeGasPricesToDB (ps : PS) (sourceGasPriceUSD : Option Int) :
    Option (List GasPriceRow) :=
  match sourceGasPriceUSD with
  | none => none
  | some v => some [⟨ps.sourceChainSelector, some v⟩]

/-- `writeTokenPricesToDB`: returns the address-sorted row list handed to
`UpsertTokenPricesForDestChain`, or `none` when no upsert is issued (a nil
map is dropped). -/
def writeTokenPricesToDB (tokenPricesUSD : Option (List (String × Int))) :
    Option (List TokenPriceRow) :=
  match tokenPricesUSD with
  | none => none
  | some m =>
      some (List.insertionSort (fun a b : TokenPriceRow => addrLe a.tokenAddr b.tokenAddr)
        (m.map (fun p => ⟨p.1, some p.2⟩)))

/-- The pair of references swapped by `UpdateDynamicConfig`; both start
unset (`none`) until the first update. -/
structure DynamicConfig (E R : Type) where
  gasPriceEstimator : Option E
  destPriceRegistryReader : Option R
deriving DecidableEq, Repr

/-- Observable steps of `UpdateDynamicConfig`, in program order. -/
inductive RefreshEvent
  | configSwap
  | gasRefresh (succeeded : Bool)
  | tokenRefresh (succeeded : Bool)
deriving DecidableEq, Repr

/-- `runGasPriceUpdate`: skip (successfully) when the estimator is unset,
otherwise observe and write.  `observe` abstracts `observeGasPriceUpdates`
applied to the estimator, `upsertGas` the ORM upsert. -/
def runGasPriceUpdate {E R : Type} (cfg : DynamicConfig E R)
    (observe : E → Except Unit (Option Int))
    (upsertGas : List GasPriceRow → Except Unit Unit)
    (ps : PS) : Except Unit Unit :=
  match cfg.gasPriceEstimator with
  | none => Except.ok ()
  | some est =>
    match observe est with
    | Except.error _ => Except.error ()
    | Except.ok sourceGasPriceUSD =>
        match writeGasPricesToDB ps sourceGasPriceUSD with
        | none => Except.ok ()
        | some rows => upsertGas rows

/-- `runTokenPriceUpdate`: skip (successfully) when the registry reader is
unset, otherwise observe and write. -/
def runTokenPriceUpdate {E R : Type} (cfg : DynamicConfig E R)
    (observe : R → Except Unit (List (String × Int)))
    (upsertToken : List TokenPriceRow → Except Unit Unit) : Except Unit Unit :=
  match cfg.destPriceRegistryReader with
  | none => Except.ok ()
  | some reader =>
    match observe reader with
    | Except.error _ => Except.error ()
    | Except.ok tokenPricesUSD =>
        match writeTokenPricesToDB (some tokenPricesUSD) with
        | none => Except.ok ()
        | some rows => upsertToken rows

/-- `UpdateDynamicConfig`: swap both references, then run one gas-price
cycle and one token-price cycle against the new pair, and return `nil`.
The result records the new config, the ordered event trace, and the
returned error value. -/
def UpdateDynamicConfig {E R : Type} (_cfg : DynamicConfig E R) (est : E) (reader : R)
    (observeGas : E → Except Unit (Option Int))
    (upsertGas : List GasPriceRow → Except Unit Unit)
    (observeToken : R → Except Unit (List (String × Int)))
    (upsertToken : List TokenPriceRow → Except Unit Unit)
    (ps : PS) :
    DynamicConfig E R × List RefreshEvent × Except Unit Unit :=
  let newCfg : DynamicConfig E R := ⟨some est, some reader⟩
  let gasResult := runGasPriceUpdate newCfg observeGas upsertGas ps
  let tokenResult := runTokenPriceUpdate newCfg observeToken upsertToken
  (newCfg,
   [RefreshEvent.configSwap,
    RefreshEvent.gasRefresh gasResult.isOk,
    RefreshEvent.tokenRefresh tokenResult.isOk],
   Except.ok ())

/-!
Interleaving model of the `dynamicConfigMu` discipline: one
`UpdateDynamicConfig` writer (exclusive lock; sets both references) runs
concurrently with one refresh cycle (shared lock held for the whole cycle;
reads `gasPriceEstimator`, then later `destPriceRegistryReader`, then
finishes fetch/compute/persist before unlocking).  Each reference carries
the generation that wrote it: `false` for the initial configuration,
`true` for the updated one.
-/

/-- Global state of the two-thread interleaving.  Writer program counter:
0 acquire-exclusive, 1 write estimator, 2 write reader, 3 release, 4 done.
Cycle (reader) program counter: 0 acquire-shared, 1 read estimator,
2 read reader, 3 finish the cycle and release, 4 done. -/
structure ConcState where
  pcW : Fin 5
  pcR : Fin 5
  estGen : Bool
  readerGen : Bool
  obsEst : Option Bool
  obsReader : Option Bool
deriving DecidableEq, Repr

/-- `ConcState` is a finite state space: it is equivalent to a product of
finite types. -/
def concStateEquiv :
    ConcState ≃ Fin 5 × Fin 5 × Bool × Bool × Option Bool × Option Bool where
  toFun s := (s.pcW, s.pcR, s.estGen, s.readerGen, s.obsEst, s.obsReader)
  invFun t := ⟨t.1, t.2.1, t.2.2.1, t.2.2.2.1, t.2.2.2.2.1, t.2.2.2.2.2⟩
  left_inv _ := rfl
  right_inv _ := rfl

instance : Fintype ConcState := Fintype.ofEquiv _ concStateEquiv.symm

/-- The writer holds the exclusive lock. -/
def wHolds (s : ConcState) : Bool :=
  decide (1 ≤ s.pcW.val) && decide (s.pcW.val ≤ 3)

/-- The cycle holds the shared lock. -/
def rHolds (s : ConcState) : Bool :=
  decide (1 ≤ s.pcR.val) && decide (s.pcR.val ≤ 3)

/-- One step of the writer; acquiring the exclusive lock blocks while the
shared lock is held. -/
def stepW (s : ConcState) : ConcState :=
  if s.pcW = 0 then (if rHolds s then s else { s with pcW := 1 })
  else if s.pcW = 1 then { s with estGen := true, pcW := 2 }
  else if s.pcW = 2 then { s with readerGen := true, pcW := 3 }
  else if s.pcW = 3 then { s with pcW := 4 }
  else s

/-- One step of the refresh cycle; acquiring the shared lock blocks while
the exclusive lock is held. -/
def stepR (s : ConcState) : ConcState :=
  if s.pcR = 0 then (if wHolds s then s else { s with pcR := 1 })
  else if s.pcR = 1 then { s with obsEst := some s.estGen, pcR := 2 }
  else if s.pcR = 2 then { s with obsReader := some s.readerGen, pcR := 3 }
  else if s.pcR = 3 then { s with pcR := 4 }
  else s

/-- Scheduler step: `true` schedules the cycle, `false` the writer. -/
def step (s : ConcState) (c : Bool) : ConcState :=
  if c then stepR s else stepW s

/-- Run a schedule from a state. -/
def run : ConcState → List Bool → ConcState
  | s, [] => s
  | s, c :: cs => run (step s c) cs

/-- Initial state: both threads at their start, initial generation in both
fields, nothing observed yet. -/
def initState : ConcState :=
  ⟨0, 0, false, false, none, none⟩

/-- Inductive invariant: lock mutual exclusion, writer progress determines
the fields, and the cycle's observations stay consistent with the fields
while it holds the shared lock. -/
def Inv (s : ConcState) : Bool :=
  !(wHolds s && rHolds s) &&
  (if s.pcW.val ≤ 1 then !s.estGen && !s.readerGen
   else if s.pcW.val = 2 then s.estGen && !s.readerGen
   else s.estGen && s.readerGen) &&
  (if s.pcR.val ≤ 1 then s.obsEst == none && s.obsReader == none
   else if s.pcR.val = 2 then s.obsEst == some s.estGen && s.obsReader == none
   else if s.pcR.val = 3 then
     s.obsEst == some s.estGen && s.obsReader == some s.readerGen
   else s.obsEst.isSome && s.obsEst == s.obsReader)

theorem lookupPrice_eq_none_iff (m : PriceMap) (k : TokenID) :
    lookupPrice m k = none ↔ ∀ p ∈ m, p.1 ≠ k := by
  induction m with
  | nil => simp [lookupPrice]
  | cons hd tl ih =>
      obtain ⟨hk, hv⟩ := hd
      by_cases h : hk = k
      · subst h
        simp [lookupPrice]
      · simp [lookupPrice, h, ih]

theorem lookupPrice_mem (m : PriceMap) (k : TokenID) (v : Option Int)
    (h : lookupPrice m k = some v) : (k, v) ∈ m := by
  induction m with
  | nil => simp [lookupPrice] at h
  | cons hd tl ih =>
      obtain ⟨hk, hv⟩ := hd
      by_cases hkk : hk = k
      · subst hkk
        have hvv : some hv = some v := by simpa [lookupPrice] using h
        cases hvv
        exact List.mem_cons_self _ _
      · simp only [lookupPrice, if_neg hkk] at h
        exact List.mem_cons_of_mem _ (ih h)

theorem mem_sortAddrs (a : String) (l : List String) :
    a ∈ sortAddrs l ↔ a ∈ l := by
  unfold sortAddrs
  exact List.mem_insertionSort _

theorem sorted_sortAddrs (l : List String) :
    List.Sorted addrLe (sortAddrs l) :=
  List.sorted_insertionSort _ l

theorem mem_flattenedAndSortedTokens (a : String) (fee bridged : List String) :
    a ∈ flattenedAndSortedTokens fee bridged ↔ a ∈ fee ++ bridged := by
  unfold flattenedAndSortedTokens
  rw [mem_sortAddrs, List.mem_dedup]

theorem mem_destTokensOf (ps : PS) (m : PriceMap) (a : String) :
    a ∈ destTokensOf ps m ↔
      ∃ p ∈ m, p.1.chainSelector = ps.destChainSelector ∧ p.1.tokenAddress = a := by
  unfold destTokensOf
  rw [mem_sortAddrs, List.mem_map]
  constructor
  · rintro ⟨p, hp, rfl⟩
    rw [List.mem_filter] at hp
    exact ⟨p, hp.1, by simpa using hp.2, rfl⟩
  · rintro ⟨p, hp, hsel, rfl⟩
    exact ⟨p, List.mem_filter.2 ⟨hp, by simpa using hsel⟩, rfl⟩

theorem stripNils_none_of_mem (m : PriceMap) (k : TokenID)
    (h : (k, (none : Option Int)) ∈ m) : stripNils m = none := by
  induction m with
  | nil => simp at h
  | cons hd tl ih =>
      obtain ⟨hk, hv⟩ := hd
      rcases List.mem_cons.1 h with heq | htl
      · cases heq
        rfl
      · cases hv with
        | none => rfl
        | some v => simp [stripNils, ih htl]

theorem stripNils_keys (m : PriceMap) (w : List (TokenID × Int))
    (h : stripNils m = some w) : w.map Prod.fst = m.map Prod.fst := by
  induction m generalizing w with
  | nil =>
      simp only [stripNils, Option.some_inj] at h
      subst h
      rfl
  | cons hd tl ih =>
      obtain ⟨hk, hv⟩ := hd
      cases hv with
      | none => simp [stripNils] at h
      | some v =>
          simp only [stripNils, Option.map_eq_some'] at h
          obtain ⟨w', hw', rfl⟩ := h
          simp [ih w' hw']

theorem stripNils_lookup (m : PriceMap) (w : List (TokenID × Int))
    (h : stripNils m = some w) (k : TokenID) :
    lookupPriceI w k = (lookupPrice m k).join := by
  induction m generalizing w with
  | nil =>
      simp only [stripNils, Option.some_inj] at h
      subst h
      rfl
  | cons hd tl ih =>
      obtain ⟨hk, hv⟩ := hd
      cases hv with
      | none => simp [stripNils] at h
      | some v =>
          simp only [stripNils, Option.map_eq_some'] at h
          obtain ⟨w', hw', rfl⟩ := h
          by_cases hkk : hk = k
          · subst hkk
            simp [lookupPriceI, lookupPrice]
          · simp [lookupPriceI, lookupPrice, hkk, ih w' hw']

theorem buildTokenPrices_ok (wNN : List (TokenID × Int)) (dest : Nat)
    (l : List (String × Nat))
    (h : ∀ td ∈ l, (lookupPriceI wNN ⟨td.1, dest⟩).isSome = true) :
    ∃ res, buildTokenPrices wNN dest l = Except.ok res := by
  induction l with
  | nil => exact ⟨[], rfl⟩
  | cons td rest ih =>
      have htd := h td (List.mem_cons_self _ _)
      obtain ⟨p, hp⟩ := Option.isSome_iff_exists.1 htd
      obtain ⟨acc, hacc⟩ := ih (fun x hx => h x (List.mem_cons_of_mem _ hx))
      exact ⟨(td.1, calculateUsdPer1e18TokenAmount p td.2) :: acc,
        by simp [buildTokenPrices, hp, hacc]⟩

theorem buildTokenPrices_keys (wNN : List (TokenID × Int)) (dest : Nat)
    (l : List (String × Nat)) (res : List (String × Int))
    (h : buildTokenPrices wNN dest l = Except.ok res) :
    res.map Prod.fst = l.map Prod.fst := by
  induction l generalizing res with
  | nil =>
      simp only [buildTokenPrices] at h
      cases h
      rfl
  | cons td rest ih =>
      simp only [buildTokenPrices] at h
      cases hp : lookupPriceI wNN ⟨td.1, dest⟩ with
      | none => rw [hp] at h; cases h
      | some p =>
          rw [hp] at h
          cases hacc : buildTokenPrices wNN dest rest with
          | error e => rw [hacc] at h; cases h
          | ok acc =>
              rw [hacc] at h
              cases h
              simp [ih acc hacc]

theorem buildTokenPrices_mem (wNN : List (TokenID × Int)) (dest : Nat)
    (l : List (String × Nat)) (res : List (String × Int))
    (h : buildTokenPrices wNN dest l = Except.ok res) (a : String) (v : Int)
    (hm : (a, v) ∈ res) :
    ∃ d p, (a, d) ∈ l ∧ lookupPriceI wNN ⟨a, dest⟩ = some p ∧
      v = calculateUsdPer1e18TokenAmount p d := by
  induction l generalizing res with
  | nil =>
      simp only [buildTokenPrices] at h
      cases h
      simp at hm
  | cons td rest ih =>
      simp only [buildTokenPrices] at h
      cases hp : lookupPriceI wNN ⟨td.1, dest⟩ with
      | none => rw [hp] at h; cases h
      | some p =>
          rw [hp] at h
          cases hacc : buildTokenPrices wNN dest rest with
          | error e => rw [hacc] at h; cases h
          | ok acc =>
              rw [hacc] at h
              cases h
              rcases List.mem_cons.1 hm with heq | htl
              · obtain ⟨h1, h2⟩ := Prod.mk.injEq .. ▸ heq
                subst h1
                exact ⟨td.2, p, List.mem_cons_self _ _, hp, h2.symm ▸ rfl⟩
              · obtain ⟨d, p', hd, hp', hv⟩ := ih acc hacc htl
                exact ⟨d, p', List.mem_cons_of_mem _ hd, hp', hv⟩

theorem foldl_insertRow_isSome {α ρ : Type} [DecidableEq α]
    (keyOf : ρ → α) (valOf : ρ → Option Int) (rows : List ρ)
    (m : α → Option Int) (k : α) :
    ((rows.foldl (insertRow keyOf valOf) m) k).isSome = true ↔
      ((m k).isSome = true ∨
        ∃ r ∈ rows, keyOf r = k ∧ (valOf r).isSome = true) := by
  induction rows generalizing m with
  | nil => simp
  | cons r rest ih =>
      rw [List.foldl_cons, ih]
      cases hv : valOf r with
      | none => simp [insertRow, hv]
      | some v =>
          by_cases hk : k = keyOf r
          · subst hk
            simp [insertRow, hv, Function.update_apply]
          · simp only [insertRow, hv, Function.update_apply, if_neg hk]
            constructor
            · rintro (hm | ⟨r', hr', hkr', hvr'⟩)
              · exact Or.inl hm
              · exact Or.inr ⟨r', List.mem_cons_of_mem _ hr', hkr', hvr'⟩
            · rintro (hm | ⟨r', hr', hkr', hvr'⟩)
              · exact Or.inl hm
              · rcases List.mem_cons.1 hr' with rfl | hr''
                · exact absurd hkr'.symm hk
                · exact Or.inr ⟨r', hr'', hkr', hvr'⟩

theorem foldl_insertRow_eq_some {α ρ : Type} [DecidableEq α]
    (keyOf : ρ → α) (valOf : ρ → Option Int) (rows : List ρ)
    (m : α → Option Int) (k : α) (v : Int)
    (h : (rows.foldl (insertRow keyOf valOf) m) k = some v) :
    m k = some v ∨ ∃ r ∈ rows, keyOf r = k ∧ valOf r = some v := by
  induction rows generalizing m with
  | nil => exact Or.inl h
  | cons r rest ih =>
      rw [List.foldl_cons] at h
      rcases ih _ h with hm | ⟨r', hr', hkr', hvr'⟩
      · cases hv : valOf r with
        | none =>
            simp only [insertRow, hv] at hm
            exact Or.inl hm
        | some w =>
            simp only [insertRow, hv, Function.update_apply] at hm
            by_cases hk : k = keyOf r
            · rw [if_pos hk] at hm
              cases hm
              exact Or.inr ⟨r, List.mem_cons_self _ _, hk.symm, hv⟩
            · rw [if_neg hk] at hm
              exact Or.inl hm
      · exact Or.inr ⟨r', List.mem_cons_of_mem _ hr', hkr', hvr'⟩

theorem lookupPrice_mapSet_self (m : PriceMap) (k : TokenID) (v : Option Int) :
    lookupPrice (mapSet m k v) k = some v := by
  induction m with
  | nil => simp [mapSet, lookupPrice]
  | cons hd tl ih =>
      obtain ⟨hk, hv⟩ := hd
      by_cases hkk : hk = k
      · subst hkk
        simp [mapSet, lookupPrice]
      · simp [mapSet, lookupPrice, hkk, ih]

theorem observeTokenPriceUpdates_reduces (ps : PS) (raw working : PriceMap)
    (wNN : List (TokenID × Int))
    (dtr : Except Unit (List String × List String))
    (gtd : List String → Except Unit (List Nat)) (decs : List Nat)
    (hb : backfilledPrices ps dtr raw = Except.ok working)
    (hs : stripNils working = some wNN)
    (hg : gtd (destTokensOf ps working) = Except.ok decs)
    (hlen : decs.length = (destTokensOf ps working).length) :
    observeTokenPriceUpdates ps true (Except.ok raw) dtr gtd =
      buildTokenPrices wNN ps.destChainSelector
        ((destTokensOf ps working).zip decs) := by
  unfold observeTokenPriceUpdates
  simp [hb, hs, hg, hlen]

theorem inv_init : Inv initState = true := by decide

set_option maxRecDepth 4000 in
theorem inv_step (s : ConcState) (c : Bool) (h : Inv s = true) :
    Inv (step s c) = true := by
  obtain ⟨pcW, pcR, e, r, oe, oRead⟩ := s
  revert h
  revert c e r oe oRead
  fin_cases pcW <;> fin_cases pcR <;> decide

theorem inv_run (sched : List Bool) (s : ConcState) (h : Inv s = true) :
    Inv (run s sched) = true := by
  induction sched generalizing s with
  | nil => exact h
  | cons c cs ih => exact ih (step s c) (inv_step s c h)

theorem inv_done (s : ConcState) (hInv : Inv s = true) (h4 : s.pcR = 4) :
    ∃ g : Bool, s.obsEst = some g ∧ s.obsReader = some g := by
  obtain ⟨pcW, pcR, e, r, oe, oRead⟩ := s
  have h4' : pcR = 4 := h4
  subst h4'
  revert hInv
  revert e r oe oRead
  fin_cases pcW <;> decide

/-- C1: For every working set of token prices, the backward-compat resolver
yields a substitute price for the destination-native TokenID iff (a) that
TokenID is absent from the working set, (b) the source-native address appears
in the flattened, deduplicated union of the destination chain's fee and
bridged token lists, and (c) the source-native TokenID's price is present and
non-nil; when it fires the substituted price equals the source-native price
verbatim, and in every other combination no destination-native price is
inserted (the working set is returned unchanged, fabricating nothing). -/
theorem backfill_resolver_fires_iff (ps : PS) (fee bridged : List String)
    (raw : PriceMap) :
    (∀ price : Int,
      findMissingDestNativeTokenPrice ps (Except.ok (fee, bridged)) raw =
          Except.ok (some price) ↔
        (lookupPrice raw ⟨ps.sourceNative, ps.destChainSelector⟩ = none ∧
         ps.sourceNative ∈ fee ++ bridged ∧
         lookupPrice raw ⟨ps.sourceNative, ps.sourceChainSelector⟩ =
           some (some price)))
    ∧ (findMissingDestNativeTokenPrice ps (Except.ok (fee, bridged)) raw =
          Except.ok none →
        backfilledPrices ps (Except.ok (fee, bridged)) raw = Except.ok raw)
    ∧ (∀ price : Int,
        findMissingDestNativeTokenPrice ps (Except.ok (fee, bridged)) raw =
            Except.ok (some price) →
        backfilledPrices ps (Except.ok (fee, bridged)) raw =
            Except.ok
              (mapSet raw ⟨ps.sourceNative, ps.destChainSelector⟩ (some price)) ∧
        lookupPrice (mapSet raw ⟨ps.sourceNative, ps.destChainSelector⟩ (some price))
            ⟨ps.sourceNative, ps.destChainSelector⟩ = some (some price)) := by
  have hmem := mem_flattenedAndSortedTokens ps.sourceNative fee bridged
  refine ⟨?_, ?_, ?_⟩
  · intro price
    unfold findMissingDestNativeTokenPrice
    by_cases hd : (lookupPrice raw ⟨ps.sourceNative, ps.destChainSelector⟩).isSome
    · obtain ⟨v, hv⟩ := Option.isSome_iff_exists.1 hd
      simp [hv]
    · have hd' : lookupPrice raw ⟨ps.sourceNative, ps.destChainSelector⟩ = none :=
        Option.not_isSome_iff_eq_none.1 hd
      by_cases hm : ps.sourceNative ∈ flattenedAndSortedTokens fee bridged
      · have hm' : ps.sourceNative ∈ fee ++ bridged := hmem.1 hm
        cases hl : lookupPrice raw ⟨ps.sourceNative, ps.sourceChainSelector⟩ with
        | none => simp [hd', hm, hm', hl]
        | some vp =>
            cases vp with
            | none => simp [hd', hm, hm', hl]
            | some p => simp [hd', hm, hm', hl, eq_comm]
      · have hm' : ps.sourceNative ∉ fee ++ bridged := fun hh => hm (hmem.2 hh)
        simp [hd', hm, hm']
  · intro h
    unfold backfilledPrices
    rw [h]
  · intro price h
    refine ⟨?_, lookupPrice_mapSet_self _ _ _⟩
    unfold backfilledPrices
    rw [h]

theorem backfill_resolver_fires_iff_witness :
    findMissingDestNativeTokenPrice ⟨10, 1, "0xAAA"⟩ (Except.ok (["0xAAA"], []))
        [(⟨"0xAAA", 1⟩, some (2 * 10 ^ 18)), (⟨"0xBBB", 10⟩, some (10 ^ 18))] =
      Except.ok (some (2 * 10 ^ 18)) :=
  ((backfill_resolver_fires_iff ⟨10, 1, "0xAAA"⟩ ["0xAAA"] []
      [(⟨"0xAAA", 1⟩, some (2 * 10 ^ 18)), (⟨"0xBBB", 10⟩, some (10 ^ 18))]).1
    (2 * 10 ^ 18)).2 ⟨by decide, by decide, by decide⟩

/-- C2: the unit converter returns exactly the floor of
`price * 10^18 / 10^decimals` computed with exact integer arithmetic, for
every non-negative price and decimals in [0, 18]. -/
theorem unit_converter_normalizes_floor (price : Int) (decimals : Nat)
    (hprice : 0 ≤ price) (hdec : decimals ≤ 18) :
    calculateUsdPer1e18TokenAmount price decimals =
      ⌊((price : ℚ) * 10 ^ 18) / (10 : ℚ) ^ decimals⌋ := by
  unfold calculateUsdPer1e18TokenAmount
  have key := Rat.floor_intCast_div_natCast (price * 10 ^ 18) (10 ^ decimals)
  rw [show ((price * 10 ^ 18 : ℤ) : ℚ) = (price : ℚ) * 10 ^ 18 by push_cast; ring]
    at key
  rw [show (((10 : ℕ) ^ decimals : ℕ) : ℚ) = (10 : ℚ) ^ decimals by push_cast; ring]
    at key
  rw [key]
  push_cast
  rfl

theorem unit_converter_normalizes_floor_witness :
    0 ≤ (10 ^ 18 : Int) ∧ (6 : Nat) ≤ 18 ∧
      calculateUsdPer1e18TokenAmount (10 ^ 18) 6 =
        ⌊(((10 ^ 18 : Int) : ℚ) * 10 ^ 18) / (10 : ℚ) ^ 6⌋ ∧
      calculateUsdPer1e18TokenAmount (10 ^ 18) 6 = 10 ^ 30 :=
  ⟨by norm_num, by norm_num,
   unit_converter_normalizes_floor (10 ^ 18) 6 (by norm_num) (by norm_num),
   by decide⟩

/-- C3: on a successful token-price observation, the result's key list is
exactly the addresses of working-set TokenIDs on the destination chain,
sorted ascending; decimals are requested from the registry reader for
exactly that sorted list (the observation depends on the oracle only at that
list); and each address maps to its working-set USD price normalized with
that token's reported decimals. -/
theorem token_observation_key_set_and_values (ps : PS) (raw working : PriceMap)
    (wNN : List (TokenID × Int))
    (dtr : Except Unit (List String × List String))
    (gtd : List String → Except Unit (List Nat)) (decs : List Nat)
    (hb : backfilledPrices ps dtr raw = Except.ok working)
    (hs : stripNils working = some wNN)
    (hg : gtd (destTokensOf ps working) = Except.ok decs)
    (hlen : decs.length = (destTokensOf ps working).length) :
    ∃ res, observeTokenPriceUpdates ps true (Except.ok raw) dtr gtd =
        Except.ok res ∧
      res.map Prod.fst = destTokensOf ps working ∧
      List.Sorted addrLe (res.map Prod.fst) ∧
      (∀ a, a ∈ res.map Prod.fst ↔
        ∃ p ∈ working, p.1.chainSelector = ps.destChainSelector ∧
          p.1.tokenAddress = a) ∧
      (∀ a v, (a, v) ∈ res →
        ∃ price d,
          lookupPrice working ⟨a, ps.destChainSelector⟩ = some (some price) ∧
          (a, d) ∈ (destTokensOf ps working).zip decs ∧
          v = calculateUsdPer1e18TokenAmount price d) ∧
      (∀ gtd2 : List String → Except Unit (List Nat),
        gtd2 (destTokensOf ps working) = gtd (destTokensOf ps working) →
        observeTokenPriceUpdates ps true (Except.ok raw) dtr gtd2 =
          observeTokenPriceUpdates ps true (Except.ok raw) dtr gtd) := by
  have hkey : ∀ a ∈ destTokensOf ps working,
      (lookupPriceI wNN ⟨a, ps.destChainSelector⟩).isSome = true := by
    intro a ha
    obtain ⟨p, hp, hsel, haddr⟩ := (mem_destTokensOf ps working a).1 ha
    have hpk : p.1 = ⟨a, ps.destChainSelector⟩ := by
      cases hpp : p.1
      simp only [hpp] at hsel haddr
      simp [hpp, hsel, haddr]
    have hne : lookupPrice working ⟨a, ps.destChainSelector⟩ ≠ none := by
      intro hnone
      exact ((lookupPrice_eq_none_iff working _).1 hnone) p hp hpk
    obtain ⟨val, hval⟩ := Option.ne_none_iff_exists'.1 hne
    cases val with
    | none =>
        have hmem : (⟨a, ps.destChainSelector⟩, (none : Option Int)) ∈ working := by
          have := lookupPrice_mem working _ _ hval
          simpa using this
        rw [stripNils_none_of_mem working _ hmem] at hs
        cases hs
    | some v =>
        rw [stripNils_lookup working wNN hs, hval]
        rfl
  have hzip : ∀ td ∈ (destTokensOf ps working).zip decs,
      (lookupPriceI wNN ⟨td.1, ps.destChainSelector⟩).isSome = true := by
    intro td htd
    exact hkey td.1 (List.of_mem_zip htd).1
  obtain ⟨res, hres⟩ := buildTokenPrices_ok wNN ps.destChainSelector _ hzip
  have hred :=
    observeTokenPriceUpdates_reduces ps raw working wNN dtr gtd decs hb hs hg hlen
  have hkeys : res.map Prod.fst = destTokensOf ps working := by
    rw [buildTokenPrices_keys wNN ps.destChainSelector _ res hres]
    exact List.map_fst_zip _ _ (le_of_eq hlen.symm)
  refine ⟨res, hred.trans hres, hkeys, ?_, ?_, ?_, ?_⟩
  · rw [hkeys]
    unfold destTokensOf
    exact sorted_sortAddrs _
  · intro a
    rw [hkeys, mem_destTokensOf]
  · intro a v hm
    obtain ⟨d, p, hd, hp, hv⟩ :=
      buildTokenPrices_mem wNN ps.destChainSelector _ res hres a v hm
    refine ⟨p, d, ?_, hd, hv⟩
    have hj := stripNils_lookup working wNN hs ⟨a, ps.destChainSelector⟩
    rw [hp] at hj
    exact (Option.join_eq_some.1 hj.symm)
  · intro gtd2 hgtd2
    unfold observeTokenPriceUpdates
    simp only [hb, hs]
    rw [hgtd2]

theorem token_observation_key_set_and_values_witness :
    backfilledPrices ⟨10, 1, "0xAAA"⟩ (Except.ok (["0xAAA"], []))
        [(⟨"0xAAA", 1⟩, some (2 * 10 ^ 18)), (⟨"0xBBB", 10⟩, some (10 ^ 18))] =
      Except.ok [(⟨"0xAAA", 1⟩, some (2 * 10 ^ 18)),
        (⟨"0xBBB", 10⟩, some (10 ^ 18)), (⟨"0xAAA", 10⟩, some (2 * 10 ^ 18))] ∧
    ∃ res, observeTokenPriceUpdates ⟨10, 1, "0xAAA"⟩ true
        (Except.ok [(⟨"0xAAA", 1⟩, some (2 * 10 ^ 18)),
          (⟨"0xBBB", 10⟩, some (10 ^ 18))])
        (Except.ok (["0xAAA"], [])) (fun _ => Except.ok [18, 6]) =
      Except.ok res :=
  ⟨rfl, Exists.imp (fun _ h => h.1)
    (token_observation_key_set_and_values ⟨10, 1, "0xAAA"⟩
      [(⟨"0xAAA", 1⟩, some (2 * 10 ^ 18)), (⟨"0xBBB", 10⟩, some (10 ^ 18))]
      _ _ (Except.ok (["0xAAA"], [])) (fun _ => Except.ok [18, 6]) [18, 6]
      rfl rfl rfl rfl)⟩

/-- C4: the gas-price observation fails when the source-native USD price is
absent from the price source's response keyed by the source-native TokenID,
when the price fetch itself errors, when the raw gas-price fetch errors,
or when the fetched raw gas price is nil; otherwise it returns exactly the
estimator's USD denomination of the raw gas price given the source-native
USD price (including that call's own error). -/
theorem gas_observation_failure_and_success (ps : PS) (raw : PriceMap)
    (gg : Except Unit (Option Int))
    (den : Option Int → Int → Except Unit (Option Int)) :
    (observeGasPriceUpdates ps true (Except.error ()) gg den = Except.error ()) ∧
    (lookupPrice raw ⟨ps.sourceNative, ps.sourceChainSelector⟩ = none →
      observeGasPriceUpdates ps true (Except.ok raw) gg den = Except.error ()) ∧
    (gg = Except.error () →
      observeGasPriceUpdates ps true (Except.ok raw) gg den = Except.error ()) ∧
    (gg = Except.ok none →
      observeGasPriceUpdates ps true (Except.ok raw) gg den = Except.error ()) ∧
    (∀ np gp, lookupPrice raw ⟨ps.sourceNative, ps.sourceChainSelector⟩ = some np →
      gg = Except.ok (some gp) →
      observeGasPriceUpdates ps true (Except.ok raw) gg den = den np gp) := by
  refine ⟨rfl, ?_, ?_, ?_, ?_⟩
  · intro h
    unfold observeGasPriceUpdates
    simp [h]
  · rintro rfl
    unfold observeGasPriceUpdates
    cases hl : lookupPrice raw ⟨ps.sourceNative, ps.sourceChainSelector⟩ <;>
      simp [hl]
  · rintro rfl
    unfold observeGasPriceUpdates
    cases hl : lookupPrice raw ⟨ps.sourceNative, ps.sourceChainSelector⟩ <;>
      simp [hl]
  · intro np gp hl hgg
    subst hgg
    unfold observeGasPriceUpdates
    simp [hl]

theorem gas_observation_failure_and_success_witness :
    lookupPrice [(⟨"0xAAA", 1⟩, some (2 * 10 ^ 18))] ⟨"0xAAA", 1⟩ =
        some (some (2 * 10 ^ 18)) ∧
    observeGasPriceUpdates ⟨10, 1, "0xAAA"⟩ true
        (Except.ok [(⟨"0xAAA", 1⟩, some (2 * 10 ^ 18))]) (Except.ok (some 5))
        (fun np gp => Except.ok (some (np.getD 0 * gp))) =
      Except.ok (some (2 * 10 ^ 18 * 5)) :=
  ⟨by decide,
   (gas_observation_failure_and_success ⟨10, 1, "0xAAA"⟩
      [(⟨"0xAAA", 1⟩, some (2 * 10 ^ 18))] (Except.ok (some 5))
      (fun np gp => Except.ok (some (np.getD 0 * gp)))).2.2.2.2
     (some (2 * 10 ^ 18)) 5 (by decide) rfl⟩

/-- C5: if either the gas-price row fetch or the token-price row fetch
errors, `GetGasAndTokenPrices` returns the error and neither result map —
never a partial result. -/
theorem get_gas_and_token_prices_fail_fast
    (gf : Except Unit (List GasPriceRow)) (tf : Except Unit (List TokenPriceRow))
    (h : gf = Except.error () ∨ tf = Except.error ()) :
    GetGasAndTokenPrices gf tf = Except.error () := by
  rcases h with rfl | rfl
  · cases tf <;> rfl
  · cases gf <;> rfl

theorem get_gas_and_token_prices_fail_fast_witness :
    GetGasAndTokenPrices (Except.error ()) (Except.ok []) = Except.error () :=
  get_gas_and_token_prices_fail_fast _ _ (Or.inl rfl)

/-- C6: `UpdateDynamicConfig` swaps in the new estimator/reader pair, then
triggers one gas-price refresh and one token-price refresh against the new
pair (in that order, after the swap), and returns `nil` regardless of either
refresh's outcome. -/
theorem update_config_swaps_then_refreshes_and_succeeds {E R : Type}
    (cfg : DynamicConfig E R) (est : E) (reader : R)
    (og : E → Except Unit (Option Int)) (ug : List GasPriceRow → Except Unit Unit)
    (ot : R → Except Unit (List (String × Int)))
    (ut : List TokenPriceRow → Except Unit Unit) (ps : PS) :
    (UpdateDynamicConfig cfg est reader og ug ot ut ps).2.2 = Except.ok () ∧
    (UpdateDynamicConfig cfg est reader og ug ot ut ps).1 =
      ⟨some est, some reader⟩ ∧
    (UpdateDynamicConfig cfg est reader og ug ot ut ps).2.1 =
      [RefreshEvent.configSwap,
       RefreshEvent.gasRefresh
         (runGasPriceUpdate ⟨some est, some reader⟩ og ug ps).isOk,
       RefreshEvent.tokenRefresh
         (runTokenPriceUpdate ⟨some est, some reader⟩ ot ut).isOk] :=
  ⟨rfl, rfl, rfl⟩

/-- C7: every USD value handed to the persistence upserts is non-nil: the
gas writer drops a nil computation without writing and otherwise writes only
non-nil values, the token writer writes only non-nil values, and a nil token
price anywhere in the backfill-augmented working set aborts the whole token
cycle with an error before any write. -/
theorem persisted_values_nonnil (ps : PS) :
    (∀ x rows, writeGasPricesToDB ps x = some rows →
      ∀ r ∈ rows, r.gasPrice.isSome = true) ∧
    (∀ m rows, writeTokenPricesToDB m = some rows →
      ∀ r ∈ rows, r.tokenPrice.isSome = true) ∧
    writeGasPricesToDB ps none = none ∧
    (∀ raw working tid
      (dtr : Except Unit (List String × List String))
      (gtd : List String → Except Unit (List Nat)),
      backfilledPrices ps dtr raw = Except.ok working →
      (tid, (none : Option Int)) ∈ working →
      observeTokenPriceUpdates ps true (Except.ok raw) dtr gtd =
        Except.error ()) := by
  refine ⟨?_, ?_, rfl, ?_⟩
  · rintro x rows h r hr
    cases x with
    | none => cases h
    | some v =>
        simp only [writeGasPricesToDB, Option.some_inj] at h
        subst h
        simp at hr
        subst hr
        rfl
  · rintro m rows h r hr
    cases m with
    | none => cases h
    | some l =>
        simp only [writeTokenPricesToDB, Option.some_inj] at h
        subst h
        rw [List.mem_insertionSort] at hr
        obtain ⟨p, hp, rfl⟩ := List.mem_map.1 hr
        rfl
  · intro raw working tid dtr gtd hb hmem
    have hs : stripNils working = none := stripNils_none_of_mem working tid hmem
    unfold observeTokenPriceUpdates
    simp [hb, hs]

theorem persisted_values_nonnil_witness :
    writeGasPricesToDB ⟨10, 1, "0xAAA"⟩ none = none ∧
    observeTokenPriceUpdates ⟨10, 1, "0xAAA"⟩ true
        (Except.ok [(⟨"0xBBB", 10⟩, none)]) (Except.ok ([], []))
        (fun _ => Except.ok []) = Except.error () :=
  ⟨(persisted_values_nonnil ⟨10, 1, "0xAAA"⟩).2.2.1,
   (persisted_values_nonnil ⟨10, 1, "0xAAA"⟩).2.2.2
     [(⟨"0xBBB", 10⟩, none)] [(⟨"0xBBB", 10⟩, none)] ⟨"0xBBB", 10⟩
     (Except.ok ([], [])) (fun _ => Except.ok []) rfl (by decide)⟩

/-- C8: when the decimals list returned by the registry reader has a length
different from the requested destination-token address list, the token-price
cycle returns an error — the pairing loop is never reached, so no token is
paired with another token's decimals. -/
theorem decimals_count_mismatch_aborts (ps : PS) (raw working : PriceMap)
    (wNN : List (TokenID × Int))
    (dtr : Except Unit (List String × List String))
    (gtd : List String → Except Unit (List Nat)) (decs : List Nat)
    (hb : backfilledPrices ps dtr raw = Except.ok working)
    (hs : stripNils working = some wNN)
    (hg : gtd (destTokensOf ps working) = Except.ok decs)
    (hlen : decs.length ≠ (destTokensOf ps working).length) :
    observeTokenPriceUpdates ps true (Except.ok raw) dtr gtd =
      Except.error () := by
  unfold observeTokenPriceUpdates
  simp [hb, hs, hg, hlen]

theorem decimals_count_mismatch_aborts_witness :
    observeTokenPriceUpdates ⟨10, 1, "0xAAA"⟩ true
        (Except.ok [(⟨"0xBBB", 10⟩, some 5)]) (Except.ok ([], []))
        (fun _ => Except.ok []) = Except.error () :=
  decimals_count_mismatch_aborts ⟨10, 1, "0xAAA"⟩
    [(⟨"0xBBB", 10⟩, some 5)] _ _ (Except.ok ([], []))
    (fun _ => Except.ok []) [] rfl rfl rfl (by decide)

/-- C9: in the lock-discipline model — one refresh cycle holding the shared
lock for its whole duration while one `UpdateDynamicConfig` writer updates
both references under the exclusive lock — every schedule in which the cycle
completes has it observing estimator and reader from the same configuration
generation: never a half-updated pair. -/
theorem cycle_never_observes_torn_config (sched : List Bool)
    (h : (run initState sched).pcR = 4) :
    ∃ g : Bool, (run initState sched).obsEst = some g ∧
      (run initState sched).obsReader = some g :=
  inv_done _ (inv_run sched initState inv_init) h

theorem cycle_never_observes_torn_config_witness :
    (run initState [true, true, true, true]).pcR = 4 ∧
      ∃ g : Bool, (run initState [true, true, true, true]).obsEst = some g ∧
        (run initState [true, true, true, true]).obsReader = some g :=
  ⟨by decide, cycle_never_observes_torn_config [true, true, true, true] (by decide)⟩

/-- C10: on a successful `GetGasAndTokenPrices` call the row fetches' nil
prices are omitted silently: the call succeeds whatever nil rows are present,
a key is in a returned map iff some fetched row has that key and a non-nil
price, and every mapped value is the non-nil price of such a row. -/
theorem get_prices_omits_nil_rows (gr : List GasPriceRow)
    (tr : List TokenPriceRow) :
    GetGasAndTokenPrices (Except.ok gr) (Except.ok tr) =
        Except.ok (buildGasPriceMap gr, buildTokenPriceMap tr) ∧
      (∀ k, (buildGasPriceMap gr k).isSome = true ↔
        ∃ r ∈ gr, r.sourceChainSelector = k ∧ r.gasPrice.isSome = true) ∧
      (∀ a, (buildTokenPriceMap tr a).isSome = true ↔
        ∃ r ∈ tr, r.tokenAddr = a ∧ r.tokenPrice.isSome = true) ∧
      (∀ k v, buildGasPriceMap gr k = some v →
        ∃ r ∈ gr, r.sourceChainSelector = k ∧ r.gasPrice = some v) ∧
      (∀ a v, buildTokenPriceMap tr a = some v →
        ∃ r ∈ tr, r.tokenAddr = a ∧ r.tokenPrice = some v) := by
  refine ⟨rfl, ?_, ?_, ?_, ?_⟩
  · intro k
    simpa using foldl_insertRow_isSome (fun r => r.sourceChainSelector)
      (fun r => r.gasPrice) gr (fun _ => none) k
  · intro a
    simpa using foldl_insertRow_isSome (fun r => r.tokenAddr)
      (fun r => r.tokenPrice) tr (fun _ => none) a
  · intro k v h
    unfold buildGasPriceMap buildRowMap at h
    have := foldl_insertRow_eq_some (fun r => r.sourceChainSelector)
      (fun r => r.gasPrice) gr (fun _ => none) k v h
    simpa using this
  · intro a v h
    unfold buildTokenPriceMap buildRowMap at h
    have := foldl_insertRow_eq_some (fun r => r.tokenAddr)
      (fun r => r.tokenPrice) tr (fun _ => none) a v h
    simpa using this

theorem get_prices_omits_nil_rows_witness :
    GetGasAndTokenPrices (Except.ok [⟨1, none⟩, ⟨2, some 7⟩]) (Except.ok []) =
      Except.ok (buildGasPriceMap [⟨1, none⟩, ⟨2, some 7⟩], buildTokenPriceMap []) ∧
    (buildGasPriceMap [⟨1, none⟩, ⟨2, some 7⟩] 1).isSome = false ∧
    (buildGasPriceMap [⟨1, none⟩, ⟨2, some 7⟩] 2).isSome = true :=
  ⟨(get_prices_omits_nil_rows [⟨1, none⟩, ⟨2, some 7⟩] []).1, by decide, by decide⟩

end PriceService
